import Mathlib

/-!
Verification of the tile-based parcel loading subsystem
(`src/hooks/useTileBasedParcels.js` and the offline splitter
`scripts/split-parcels-into-tiles.mjs`).

The JavaScript runs single-threaded with cooperative (async/await)
concurrency.  The embedding translates it as follows:

* Numbers that only ever take part in order comparisons (coordinates,
  bounding boxes) are embedded as `Rat`.
* A JS `Map` is embedded as an association list whose keys are unique
  (entries are only inserted when the key is absent, matching the code,
  which always guards insertion behind a `has` check).
* A JS `Set` is embedded as a duplicate-free list in insertion order
  (`setOfList` reproduces `new Set(array)` iteration order).
* `loadTile` is split at its single suspension point: `loadTileStart`
  is the synchronous prefix that runs up to and including issuing the
  fetch and registering the in-flight promise, and `loadTileResolve`
  is the continuation that runs when that fetch settles (success:
  insert into the cache; failure: return null; in both cases the
  `finally` clause deletes the in-flight entry).  The network is an
  oracle `fetch : String → Option TileData` keyed by the tile's file
  name: `some` is a successful fetch+decode, `none` any failure
  (network error, non-ok status, malformed JSON).
* `updateVisibleTiles` is a straight-line async function; it is
  embedded as a state transformer that also emits the ordered trace of
  its observable events (loading-flag writes, tile-load resolutions,
  the visible-set publication, prefetch starts), in program order.
-/

/-- A longitude/latitude bounding box, as used for viewports, tiles and
the dataset bounds (`{minLng, maxLng, minLat, maxLat}` in the source). -/
structure Bounds where
  minLng : Rat
  maxLng : Rat
  minLat : Rat
  maxLat : Rat
deriving DecidableEq, Repr

/-- One entry of `tilesManifest.tiles`. -/
structure TileDesc where
  col : Int
  row : Int
  file : String
  bounds : Bounds
  featureCount : Nat
deriving DecidableEq, Repr

/-- The tile manifest (`tiles.json`): dataset bounds, grid size and the
ordered tile list. -/
structure Manifest where
  bounds : Bounds
  gridCols : Nat
  gridRows : Nat
  tiles : List TileDesc
deriving DecidableEq, Repr

/-- A GeoJSON geometry as far as the hook inspects it: a `Polygon`
(list of rings, each ring a list of `[lng, lat]` positions), a
`MultiPolygon` (list of polygons), or a geometry object whose
`coordinates` field is absent or null (`missingCoordinates`). -/
inductive Geometry where
  | polygon (rings : List (List (Rat × Rat)))
  | multiPolygon (polygons : List (List (List (Rat × Rat))))
  | missingCoordinates
deriving DecidableEq, Repr

/-- One GeoJSON feature: an optional geometry plus an opaque property
bag (owner, parcel id, acreage, ...), kept abstract as key/value pairs
since the hook never inspects it. -/
structure Feature where
  geometry : Option Geometry
  props : List (String × String)
deriving DecidableEq, Repr

/-- A decoded tile resource (`{type: "FeatureCollection", features}`). -/
structure TileData where
  features : List Feature
deriving DecidableEq, Repr

/-- The identifier string of a tile descriptor. -/
def tileIdOf (t : TileDesc) : String :=
  toString t.col ++ "_" ++ toString t.row

/-- The closed-rectangle intersection test of `getTilesForViewport`. -/
def rectIntersects (vb tb : Bounds) : Bool :=
  !(vb.maxLng < tb.minLng || vb.minLng > tb.maxLng ||
    vb.maxLat < tb.minLat || vb.minLat > tb.maxLat)

/-- `getTilesForViewport(bounds)`: empty when the manifest has not
loaded, otherwise the identifiers of the manifest tiles whose bounding
box intersects the viewport, in manifest order. -/
def getTilesForViewport (m : Option Manifest) (bounds : Bounds) : List String :=
  match m with
  | none => []
  | some mf => (mf.tiles.filter (fun t => rectIntersects bounds t.bounds)).map tileIdOf

/-- The candidate cells visited by `getSurroundingTiles`'s nested loop
(`c` outer from `col-1` to `col+1`, `r` inner), skipping the center. -/
def surroundingCells (col row : Int) : List (Int × Int) :=
  [(col - 1, row - 1), (col - 1, row), (col - 1, row + 1),
   (col, row - 1), (col, row + 1),
   (col + 1, row - 1), (col + 1, row), (col + 1, row + 1)]

/-- `tilesManifest?.tiles?.some((t) => t.col === c && t.row === r)`:
false when the manifest has not loaded. -/
def tileExists (m : Option Manifest) (c r : Int) : Bool :=
  match m with
  | none => false
  | some mf => mf.tiles.any (fun t => t.col == c && t.row == r)

/-- `getSurroundingTiles(col, row)`: the up-to-8 grid-adjacent cells
that exist in the manifest, as identifier strings, in loop order. -/
def getSurroundingTiles (m : Option Manifest) (col row : Int) : List String :=
  ((surroundingCells col row).filter (fun cr => tileExists m cr.1 cr.2)).map
    (fun cr => toString cr.1 ++ "_" ++ toString cr.2)

/-- The tile cache (`tileCacheRef.current`): a `Map` from tile id to
decoded tile data, embedded as an association list. -/
abbrev TileCache := List (String × TileData)

/-- `Map.get` on the tile cache. -/
def cacheGet (c : TileCache) (id : String) : Option TileData :=
  c.lookup id

/-- `Map.has` on the tile cache. -/
def cacheHas (c : TileCache) (id : String) : Bool :=
  (cacheGet c id).isSome

/-- `Map.set` on the tile cache; the code only calls it on absent keys,
for which JS `Map.set` appends in iteration order. -/
def cacheSet (c : TileCache) (id : String) (v : TileData) : TileCache :=
  c ++ [(id, v)]

/-- The in-flight load registry (`inflightLoadsRef.current`): a `Map`
from tile id to the pending load promise, promises being represented by
the numeric identity `Nat` they were allocated. -/
abbrev Inflight := List (String × Nat)

/-- `Map.get` on the in-flight registry. -/
def inflightGet (l : Inflight) (id : String) : Option Nat :=
  l.lookup id

/-- `Map.delete` on the in-flight registry (keys are unique, so
removing every entry with the key equals deleting the one entry). -/
def inflightDelete (l : Inflight) (id : String) : Inflight :=
  l.filter (fun e => !(e.1 == id))

/-- `new Set(array)` / accumulating `Set.add`: keep the first
occurrence of each element, in insertion order. -/
def setInsert (l : List String) (x : String) : List String :=
  if l.contains x then l else l ++ [x]

/-- The duplicate-free, insertion-ordered list of a JS `Set` built from
a list. -/
def setOfList (l : List String) : List String :=
  l.foldl setInsert []

/-- The mutable hook state touched by the tile-loading operations:
the write-once manifest, the tile cache, the published visible-tile
set (a `Set`, embedded as a duplicate-free list), the in-flight
registry, the `loading` flag, plus bookkeeping for the embedding
(`fetchCount` counts issued tile fetches, `nextPromiseId` allocates
promise identities). -/
structure LoaderState where
  tilesManifest : Option Manifest
  tileCache : TileCache
  visibleTiles : List String
  inflight : Inflight
  loading : Bool
  fetchCount : Nat
  nextPromiseId : Nat
deriving DecidableEq, Repr

/-- `tilesManifest?.tiles.find((t) => ... === tileId)` (optional
chaining short-circuits to undefined when the manifest is absent). -/
def findTile (m : Option Manifest) (id : String) : Option TileDesc :=
  match m with
  | none => none
  | some mf => mf.tiles.find? (fun t => tileIdOf t == id)

/-- What the synchronous prefix of `loadTile` hands back to its caller:
the cached value, the already-pending promise, null (unknown tile), or
a freshly started promise. -/
inductive StartOutcome where
  | cachedHit (td : TileData)
  | inflightHit (pid : Nat)
  | nullNoTile
  | started (pid : Nat)
deriving DecidableEq, Repr

/-- The synchronous prefix of `loadTile(tileId)`: cache check, in-flight
check, manifest lookup; otherwise it creates the load promise (whose
body runs up to issuing the fetch, counted here) and registers it in
the in-flight registry. -/
def loadTileStart (s : LoaderState) (id : String) : StartOutcome × LoaderState :=
  match cacheGet s.tileCache id with
  | some td => (.cachedHit td, s)
  | none =>
    match inflightGet s.inflight id with
    | some p => (.inflightHit p, s)
    | none =>
      match findTile s.tilesManifest id with
      | none => (.nullNoTile, s)
      | some _ =>
        (.started s.nextPromiseId,
          { s with
            inflight := (id, s.nextPromiseId) :: s.inflight,
            fetchCount := s.fetchCount + 1,
            nextPromiseId := s.nextPromiseId + 1 })

/-- The continuation of the pending load promise for `id` once its
fetch settles: on success insert the decoded data into the cache, on
failure log and return null; in both cases the `finally` clause deletes
the in-flight entry.  The descriptor is re-looked-up here: the manifest
is write-once, so this equals the descriptor captured at start time. -/
def loadTileResolve (fetch : String → Option TileData) (s : LoaderState) (id : String) :
    Option TileData × LoaderState :=
  match findTile s.tilesManifest id with
  | none => (none, s)
  | some t =>
    match fetch t.file with
    | some td =>
      (some td,
        { s with
          tileCache := cacheSet s.tileCache id td,
          inflight := inflightDelete s.inflight id })
    | none =>
      (none, { s with inflight := inflightDelete s.inflight id })

/-- A fully sequential (call, then await to completion) run of
`loadTile(tileId)`: the synchronous prefix followed, when a promise is
pending, by that promise's completion. -/
def loadTileSeq (fetch : String → Option TileData) (s : LoaderState) (id : String) :
    Option TileData × LoaderState :=
  match loadTileStart s id with
  | (.cachedHit td, s1) => (some td, s1)
  | (.nullNoTile, s1) => (none, s1)
  | (.inflightHit _, s1) => loadTileResolve fetch s1 id
  | (.started _, s1) => loadTileResolve fetch s1 id

/-- N consecutive invocations of `loadTile(id)`'s synchronous prefix,
none of which is interleaved with a fetch resolution — the embedding of
"N calls arrive before the first call's fetch resolves" under
cooperative scheduling. -/
def loadTileStartN (s : LoaderState) (id : String) : Nat → List StartOutcome × LoaderState
  | 0 => ([], s)
  | n + 1 =>
    let r1 := loadTileStart s id
    let rs := loadTileStartN r1.2 id n
    (r1.1 :: rs.1, rs.2)

/-- The observable events of one `updateVisibleTiles` invocation, in
program order: writes to the `loading` flag, the settling of an awaited
tile load (with its success bit), the publication of a new visible-tile
set (`setVisibleTiles`), and the un-awaited start of a prefetch load. -/
inductive Event where
  | setLoading (b : Bool)
  | tileResolved (id : String) (success : Bool)
  | publish (tiles : List String)
  | prefetchStart (id : String)
deriving DecidableEq, Repr

/-- Discriminator for visible-set publication events. -/
def isPublishEvent : Event → Bool
  | .publish _ => true
  | _ => false

/-- Run the synchronous prefixes of `loadTile` for each id in order —
the state effect of `visibleMissing.map((tileId) => loadTile(tileId))`
before any fetch settles. -/
def startAll (s : LoaderState) : List String → LoaderState
  | [] => s
  | id :: ids => startAll (loadTileStart s id).2 ids

/-- Settle the pending load promise of each id in order, emitting one
resolution event per promise — the state effect of awaiting
`Promise.all` over the started loads. -/
def resolveAll (fetch : String → Option TileData) (s : LoaderState) :
    List String → LoaderState × List Event
  | [] => (s, [])
  | id :: ids =>
    let r := loadTileResolve fetch s id
    let rest := resolveAll fetch r.2 ids
    (rest.1, Event.tileResolved id r.1.isSome :: rest.2)

/-- `tileId.split("_")` on the character list (JS `split` keeps empty
groups, e.g. `"" → [""]`, `"_5" → ["", "5"]`). -/
def splitOnUnderscore : List Char → List (List Char)
  | [] => [[]]
  | c :: rest =>
    match splitOnUnderscore rest with
    | [] => []
    | grp :: grps => if c = '_' then [] :: grp :: grps else (c :: grp) :: grps

/-- Accumulate decimal digits; any non-digit character makes the whole
parse fail (the NaN outcome of JS `Number`). -/
def natOfDigitsAux : List Char → Nat → Option Nat
  | [], acc => some acc
  | c :: cs, acc =>
    if ('0' ≤ c ∧ c ≤ '9') then natOfDigitsAux cs (acc * 10 + (c.toNat - '0'.toNat))
    else none

/-- `Number(component)` for an optionally-negated decimal integer
string; `none` embeds NaN.  (JS also accepts forms such as `""`,
decimals or exponents that never occur in a `"{col}_{row}"` id; those
are not modeled.) -/
def parseIntChars : List Char → Option Int
  | [] => none
  | ['-'] => none
  | '-' :: c :: cs => (natOfDigitsAux (c :: cs) 0).map (fun n => -(n : Int))
  | c :: cs => (natOfDigitsAux (c :: cs) 0).map (fun n => (n : Int))

/-- `tileId.split("_").map(Number)` destructured to `[col, row]`.
`none` embeds the NaN outcome (a malformed component), under which the
surrounding-tile loop bounds are NaN and the loop body never runs; for
the well-formed `"{col}_{row}"` identifiers the code produces, the
parse returns exactly `(col, row)`. -/
def parseTileId (id : String) : Option (Int × Int) :=
  match splitOnUnderscore id.data with
  | c :: r :: _ =>
    match parseIntChars c, parseIntChars r with
    | some ci, some ri => some (ci, ri)
    | _, _ => none
  | _ => none

/-- `getSurroundingTiles(col, row)` applied to a parsed tile id (empty
when a component parses to NaN, since the `for` loop then runs zero
iterations). -/
def surroundingOfId (m : Option Manifest) (id : String) : List String :=
  match parseTileId id with
  | some cr => getSurroundingTiles m cr.1 cr.2
  | none => []

/-- The `hasChanges` computation of `updateVisibleTiles`: the sizes
differ, or some member of the next set is absent from the current one. -/
def hasChangesCalc (current next : List String) : Bool :=
  if current.length != next.length then true
  else next.any (fun id => !(current.contains id))

/-- `const visibleTileIds = getTilesForViewport(viewportBounds)`. -/
def uvtVisibleIds (s : LoaderState) (viewportBounds : Bounds) : List String :=
  getTilesForViewport s.tilesManifest viewportBounds

/-- `const nextVisibleSet = new Set(visibleTileIds)`. -/
def uvtNext (s : LoaderState) (viewportBounds : Bounds) : List String :=
  setOfList (uvtVisibleIds s viewportBounds)

/-- `const visibleMissing = visibleTileIds.filter((tileId) =>
!tileCacheRef.current.has(tileId))`. -/
def uvtMissing (s : LoaderState) (viewportBounds : Bounds) : List String :=
  (uvtVisibleIds s viewportBounds).filter (fun id => !(cacheHas s.tileCache id))

/-- The awaited-load block of `updateVisibleTiles`: when some visible
tile is missing from the cache, set `loading`, run every `loadTile`
call's synchronous prefix in order, then await `Promise.all` (each
distinct pending promise settles once, in order; `setOfList` collapses
duplicate ids, whose `loadTile` call joined the already-pending
promise), then clear `loading`.  Otherwise nothing happens. -/
def uvtPhase1 (fetch : String → Option TileData) (s : LoaderState)
    (viewportBounds : Bounds) : LoaderState × List Event :=
  if (uvtMissing s viewportBounds).length > 0 then
    let sS := startAll { s with loading := true } (uvtMissing s viewportBounds)
    let res := resolveAll fetch sS (setOfList (uvtMissing s viewportBounds))
    ({ res.1 with loading := false },
      Event.setLoading true :: res.2 ++ [Event.setLoading false])
  else (s, ([] : List Event))

/-- The publication block of `updateVisibleTiles`: when `hasChanges`,
write `nextVisibleSet` to the ref and publish it via
`setVisibleTiles`. -/
def uvtPhase2 (fetch : String → Option TileData) (s : LoaderState)
    (viewportBounds : Bounds) : LoaderState × List Event :=
  if hasChangesCalc s.visibleTiles (uvtNext s viewportBounds) then
    ({ (uvtPhase1 fetch s viewportBounds).1 with visibleTiles := uvtNext s viewportBounds },
      [Event.publish (uvtNext s viewportBounds)])
  else ((uvtPhase1 fetch s viewportBounds).1, ([] : List Event))

/-- The prefetch targets of `updateVisibleTiles`: the `Set` union of
the surrounding tiles of every visible tile id, filtered to those not
in the cache at loop time (the preceding starts never insert into the
cache, so the cache at loop time is the phase-2 cache). -/
def uvtPrefetchIds (fetch : String → Option TileData) (s : LoaderState)
    (viewportBounds : Bounds) : List String :=
  (setOfList ((uvtVisibleIds s viewportBounds).map (surroundingOfId s.tilesManifest)).flatten).filter
    (fun id => !(cacheHas (uvtPhase2 fetch s viewportBounds).1.tileCache id))

/-- One invocation of `updateVisibleTiles(viewportBounds)`, run to
completion under the cooperative scheduler, as a state transformer that
also returns the ordered trace of observable events.  Mirrors the
source: early return without the manifest; the awaited-load block
(`uvtPhase1`); the conditional publication (`uvtPhase2`); finally the
fire-and-forget prefetch loop, which only runs each `loadTile`'s
synchronous prefix (`startAll`) — its fetches settle after this
invocation completes. -/
def updateVisibleTiles (fetch : String → Option TileData) (s : LoaderState)
    (viewportBounds : Bounds) : LoaderState × List Event :=
  match s.tilesManifest with
  | none => (s, [])
  | some _ =>
    (startAll (uvtPhase2 fetch s viewportBounds).1 (uvtPrefetchIds fetch s viewportBounds),
      (uvtPhase1 fetch s viewportBounds).2 ++ (uvtPhase2 fetch s viewportBounds).2 ++
        (uvtPrefetchIds fetch s viewportBounds).map Event.prefetchStart)

/-- The coordinate list `getVisibleParcels` inspects for a feature:
`coordinates.flat(1)` for a `Polygon`, `coordinates.flat(2)` for a
`MultiPolygon`, empty when the geometry or its coordinates are
missing. -/
def featureCoords (f : Feature) : List (Rat × Rat) :=
  match f.geometry with
  | none => []
  | some .missingCoordinates => []
  | some (.polygon rings) => rings.flatten
  | some (.multiPolygon polys) => polys.flatten.flatten

/-- The per-coordinate viewport test of `getVisibleParcels`'s filter. -/
def coordInViewport (vb : Bounds) (c : Rat × Rat) : Bool :=
  vb.minLng ≤ c.1 && c.1 ≤ vb.maxLng && vb.minLat ≤ c.2 && c.2 ≤ vb.maxLat

/-- The filter predicate of `getVisibleParcels` when a viewport is
supplied: false when the geometry or its coordinates are missing,
otherwise true when some flattened coordinate lies in the viewport. -/
def featurePassesViewport (vb : Bounds) (f : Feature) : Bool :=
  match f.geometry with
  | none => false
  | some .missingCoordinates => false
  | some (.polygon rings) => rings.flatten.any (coordInViewport vb)
  | some (.multiPolygon polys) => polys.flatten.flatten.any (coordInViewport vb)

/-- The concatenation (`allFeatures`) of the cached feature lists of the
visible-tile set, in visible-set iteration order; uncached ids
contribute nothing. -/
def allFeaturesOf (visible : List String) (cache : TileCache) : List Feature :=
  (visible.map (fun id =>
    match cacheGet cache id with
    | some td => td.features
    | none => [])).flatten

/-- `getVisibleParcels(viewportBounds?)`: null when the concatenation is
empty, otherwise the concatenation, filtered by the per-feature
viewport test when a viewport was supplied.  `some fs` stands for the
returned `{type: "FeatureCollection", features: fs}`. -/
def getVisibleParcels (visible : List String) (cache : TileCache)
    (viewportBounds : Option Bounds) : Option (List Feature) :=
  let allFeatures := allFeaturesOf visible cache
  if allFeatures.length = 0 then none
  else
    match viewportBounds with
    | none => some allFeatures
    | some vb => some (allFeatures.filter (featurePassesViewport vb))

/-- `featureInBbox(feature, bbox)` of the offline splitter
(`scripts/split-parcels-into-tiles.mjs`), which decides the set of
tiles a feature is written into.  Missing geometry or coordinates, an
absent first element of `coordinates`, and an empty first ring all
yield false (the last because the min/max fold then leaves the bounds
at ±Infinity and `maxLng < bbox.minLng` holds).  For a `Polygon`, the
fold ranges over the positions of the first ring and the test is the
closed-rectangle intersection of that ring's bounding box with the tile
box.  For a `MultiPolygon`, `coordinates[0]` is a list of rings, so the
destructuring `[lng, lat]` binds whole coordinate arrays, `Math.min`
coerces them to NaN, every comparison with NaN is false and the
function returns true whenever the first polygon has at least one ring
(NaN and ±Infinity have no `Rat` counterpart, so these branches carry
the evaluated outcome). -/
def featureInBbox (f : Feature) (bbox : Bounds) : Bool :=
  match f.geometry with
  | none => false
  | some .missingCoordinates => false
  | some (.polygon rings) =>
    match rings with
    | [] => false
    | ring :: _ =>
      match ring with
      | [] => false
      | c0 :: cs =>
        let mnLng := cs.foldl (fun a p => min a p.1) c0.1
        let mxLng := cs.foldl (fun a p => max a p.1) c0.1
        let mnLat := cs.foldl (fun a p => min a p.2) c0.2
        let mxLat := cs.foldl (fun a p => max a p.2) c0.2
        !(mxLng < bbox.minLng || mnLng > bbox.maxLng ||
          mxLat < bbox.minLat || mnLat > bbox.maxLat)
  | some (.multiPolygon polys) =>
    match polys with
    | [] => false
    | [] :: _ => false
    | (_ :: _) :: _ => true

/-- A concrete single-tile manifest used to exercise the load paths on
concrete inputs. -/
def soloTile : TileDesc :=
  { col := 0, row := 0, file := "tile_0_0.geojson"
  , bounds := { minLng := 0, maxLng := 1, minLat := 0, maxLat := 1 }
  , featureCount := 1 }

/-- The manifest holding only `soloTile`. -/
def soloManifest : Manifest :=
  { bounds := { minLng := 0, maxLng := 1, minLat := 0, maxLat := 1 }
  , gridCols := 1, gridRows := 1, tiles := [soloTile] }

/-- A sparse 2×2 manifest holding only the tiles `0_0` and `1_1`, the
spec's sparse-grid scenario. -/
def sparseManifest : Manifest :=
  { bounds := { minLng := 0, maxLng := 2, minLat := 0, maxLat := 2 }
  , gridCols := 2, gridRows := 2
  , tiles :=
    [ { col := 0, row := 0, file := "tile_0_0.geojson"
      , bounds := { minLng := 0, maxLng := 1, minLat := 0, maxLat := 1 }
      , featureCount := 1 }
    , { col := 1, row := 1, file := "tile_1_1.geojson"
      , bounds := { minLng := 1, maxLng := 2, minLat := 1, maxLat := 2 }
      , featureCount := 1 } ] }

/-- A fresh hook state with the given manifest and all stores empty. -/
def emptyLoader (m : Option Manifest) : LoaderState :=
  { tilesManifest := m, tileCache := [], visibleTiles := [], inflight := []
  , loading := false, fetchCount := 0, nextPromiseId := 0 }

/-- A one-vertex polygon feature for concrete tile data. -/
def demoFeature (x : Rat) : Feature :=
  { geometry := some (.polygon [[(x, x)]]), props := [] }

/-- A concrete decoded tile resource. -/
def demoTileData : TileData := { features := [demoFeature 0] }

/-- A network oracle whose every fetch succeeds with `demoTileData`. -/
def fetchOk : String → Option TileData := fun _ => some demoTileData

/-- A network oracle whose every fetch fails. -/
def fetchFail : String → Option TileData := fun _ => none

/-- A viewport equal to `soloTile`'s bounding box. -/
def vbSolo : Bounds := { minLng := 0, maxLng := 1, minLat := 0, maxLat := 1 }

/-- Left tile of the two-tile duplication scenario. -/
def tileA : TileDesc :=
  { col := 0, row := 0, file := "tile_0_0.geojson"
  , bounds := { minLng := 0, maxLng := 2, minLat := 0, maxLat := 4 }
  , featureCount := 1 }

/-- Right tile of the two-tile duplication scenario. -/
def tileB : TileDesc :=
  { col := 1, row := 0, file := "tile_1_0.geojson"
  , bounds := { minLng := 2, maxLng := 4, minLat := 0, maxLat := 4 }
  , featureCount := 1 }

/-- A polygon feature whose first ring's bounding box (lng 1..3,
lat 1..2) straddles the boundary between `tileA` and `tileB`; the
splitter's `featureInBbox` therefore writes it into both tile files. -/
def straddleFeature : Feature :=
  { geometry := some (.polygon [[(1, 1), (3, 1), (3, 2), (1, 2), (1, 1)]])
  , props := [("PARCEL_ID", "straddle")] }

/-- The two visible tiles of the duplication scenario. -/
def dupVisible : List String := ["0_0", "1_0"]

/-- The cache after both tiles of the duplication scenario loaded; the
straddling feature sits in both, as the splitter produces. -/
def dupCache : TileCache :=
  [("0_0", { features := [straddleFeature] }),
   ("1_0", { features := [straddleFeature] })]

/-- A cache whose two visible tiles hold disjoint feature lists. -/
def cleanCache : TileCache :=
  [("0_0", { features := [demoFeature 0] }),
   ("1_0", { features := [demoFeature 3] })]

/-- A viewport covering the whole duplication scenario. -/
def wideVb : Bounds := { minLng := 0, maxLng := 4, minLat := 0, maxLat := 4 }

/-- A feature with no geometry at all (degenerate input). -/
def degFeature : Feature := { geometry := none, props := [("OWNER", "x")] }

/-- A cache whose only visible tile holds the degenerate feature. -/
def degCache : TileCache := [("0_0", { features := [degFeature] })]

lemma contains_iff_mem (l : List String) (x : String) : l.contains x = true ↔ x ∈ l := by
  rw [List.contains_iff_exists_mem_beq]
  constructor
  · rintro ⟨y, hy, hb⟩
    rw [beq_iff_eq] at hb
    exact hb ▸ hy
  · intro h
    exact ⟨x, h, beq_self_eq_true x⟩

lemma cacheGet_cacheSet_of_none {c : TileCache} {id : String} (td : TileData)
    (h : cacheGet c id = none) : cacheGet (cacheSet c id td) id = some td := by
  unfold cacheGet cacheSet
  rw [List.lookup_append]
  unfold cacheGet at h
  rw [h]
  simp [List.lookup]

lemma cacheGet_cacheSet_preserved {c : TileCache} {idq : String} {v : TileData}
    (id : String) (td : TileData)
    (h : cacheGet c idq = some v) : cacheGet (cacheSet c id td) idq = some v := by
  unfold cacheGet cacheSet
  rw [List.lookup_append]
  unfold cacheGet at h
  rw [h]
  rfl

lemma cacheHas_cacheSet_self (c : TileCache) (id : String) (td : TileData) :
    cacheHas (cacheSet c id td) id = true := by
  cases h : cacheGet c id with
  | none => simp [cacheHas, cacheGet_cacheSet_of_none td h]
  | some v => simp [cacheHas, cacheGet_cacheSet_preserved id td h]

lemma cacheHas_cacheSet_mono {c : TileCache} {idq : String} (id : String) (td : TileData)
    (h : cacheHas c idq = true) : cacheHas (cacheSet c id td) idq = true := by
  unfold cacheHas at h
  cases hg : cacheGet c idq with
  | none => rw [hg] at h; simp at h
  | some v => simp [cacheHas, cacheGet_cacheSet_preserved id td hg]

lemma loadTileStart_tileCache (s : LoaderState) (id : String) :
    ((loadTileStart s id).2).tileCache = s.tileCache := by
  unfold loadTileStart
  repeat' split
  all_goals rfl

lemma loadTileStart_tilesManifest (s : LoaderState) (id : String) :
    ((loadTileStart s id).2).tilesManifest = s.tilesManifest := by
  unfold loadTileStart
  repeat' split
  all_goals rfl

lemma loadTileStart_visibleTiles (s : LoaderState) (id : String) :
    ((loadTileStart s id).2).visibleTiles = s.visibleTiles := by
  unfold loadTileStart
  repeat' split
  all_goals rfl

lemma startAll_tileCache (ids : List String) : ∀ s : LoaderState,
    (startAll s ids).tileCache = s.tileCache := by
  induction ids with
  | nil => intro s; rfl
  | cons id ids ih =>
    intro s
    unfold startAll
    rw [ih, loadTileStart_tileCache]

lemma startAll_tilesManifest (ids : List String) : ∀ s : LoaderState,
    (startAll s ids).tilesManifest = s.tilesManifest := by
  induction ids with
  | nil => intro s; rfl
  | cons id ids ih =>
    intro s
    unfold startAll
    rw [ih, loadTileStart_tilesManifest]

lemma startAll_visibleTiles (ids : List String) : ∀ s : LoaderState,
    (startAll s ids).visibleTiles = s.visibleTiles := by
  induction ids with
  | nil => intro s; rfl
  | cons id ids ih =>
    intro s
    unfold startAll
    rw [ih, loadTileStart_visibleTiles]

lemma loadTileResolve_tilesManifest (fetch : String → Option TileData)
    (s : LoaderState) (id : String) :
    ((loadTileResolve fetch s id).2).tilesManifest = s.tilesManifest := by
  unfold loadTileResolve
  repeat' split
  all_goals rfl

lemma loadTileResolve_visibleTiles (fetch : String → Option TileData)
    (s : LoaderState) (id : String) :
    ((loadTileResolve fetch s id).2).visibleTiles = s.visibleTiles := by
  unfold loadTileResolve
  repeat' split
  all_goals rfl

lemma loadTileResolve_cache_mono (fetch : String → Option TileData)
    (s : LoaderState) (id idq : String) (v : TileData)
    (h : cacheGet s.tileCache idq = some v) :
    cacheGet ((loadTileResolve fetch s id).2).tileCache idq = some v := by
  unfold loadTileResolve
  repeat' split
  all_goals simp_all [cacheGet_cacheSet_preserved]

lemma resolveAll_tilesManifest (fetch : String → Option TileData) (ids : List String) :
    ∀ s : LoaderState, ((resolveAll fetch s ids).1).tilesManifest = s.tilesManifest := by
  induction ids with
  | nil => intro s; rfl
  | cons id ids ih =>
    intro s
    unfold resolveAll
    rw [ih, loadTileResolve_tilesManifest]

lemma resolveAll_visibleTiles (fetch : String → Option TileData) (ids : List String) :
    ∀ s : LoaderState, ((resolveAll fetch s ids).1).visibleTiles = s.visibleTiles := by
  induction ids with
  | nil => intro s; rfl
  | cons id ids ih =>
    intro s
    unfold resolveAll
    rw [ih, loadTileResolve_visibleTiles]

lemma resolveAll_cache_mono (fetch : String → Option TileData) (ids : List String)
    (idq : String) (v : TileData) :
    ∀ s : LoaderState, cacheGet s.tileCache idq = some v →
    cacheGet ((resolveAll fetch s ids).1).tileCache idq = some v := by
  induction ids with
  | nil => intro s h; exact h
  | cons id ids ih =>
    intro s h
    unfold resolveAll
    exact ih _ (loadTileResolve_cache_mono fetch s id idq v h)

lemma cacheHas_resolveAll_mono (fetch : String → Option TileData) (ids : List String)
    (idq : String) (s : LoaderState) (h : cacheHas s.tileCache idq = true) :
    cacheHas ((resolveAll fetch s ids).1).tileCache idq = true := by
  unfold cacheHas at h ⊢
  cases hg : cacheGet s.tileCache idq with
  | none => rw [hg] at h; simp at h
  | some v => rw [resolveAll_cache_mono fetch ids idq v s hg]; rfl

lemma resolveAll_resolves (fetch : String → Option TileData) (ids : List String)
    (idq : String) :
    ∀ s : LoaderState, idq ∈ ids → (∃ t, findTile s.tilesManifest idq = some t) →
    cacheHas ((resolveAll fetch s ids).1).tileCache idq = true ∨
      ∃ t, findTile s.tilesManifest idq = some t ∧ fetch t.file = none := by
  induction ids with
  | nil => intro s h; exact absurd h (List.not_mem_nil idq)
  | cons id ids ih =>
    intro s hmem ht
    obtain ⟨t, ht⟩ := ht
    rcases List.mem_cons.mp hmem with heq | htail
    · subst heq
      unfold resolveAll
      cases hf : fetch t.file with
      | some td =>
        left
        apply cacheHas_resolveAll_mono
        simp only [loadTileResolve, ht, hf]
        exact cacheHas_cacheSet_self _ _ _
      | none =>
        right
        exact ⟨t, ht, hf⟩
    · unfold resolveAll
      have hm2 : findTile ((loadTileResolve fetch s id).2).tilesManifest idq = some t := by
        rw [loadTileResolve_tilesManifest]; exact ht
      rcases ih ((loadTileResolve fetch s id).2) htail ⟨t, hm2⟩ with hc | ⟨u, hu, hfu⟩
      · exact Or.inl hc
      · right
        rw [loadTileResolve_tilesManifest] at hu
        exact ⟨u, hu, hfu⟩

lemma resolveAll_events_cover (fetch : String → Option TileData) (ids : List String)
    (idq : String) :
    ∀ s : LoaderState, idq ∈ ids →
    ∃ ok, Event.tileResolved idq ok ∈ (resolveAll fetch s ids).2 := by
  induction ids with
  | nil => intro s h; exact absurd h (List.not_mem_nil idq)
  | cons id ids ih =>
    intro s hmem
    rcases List.mem_cons.mp hmem with heq | htail
    · subst heq
      exact ⟨((loadTileResolve fetch s idq).1).isSome, List.mem_cons_self _ _⟩
    · obtain ⟨ok, hok⟩ := ih ((loadTileResolve fetch s id).2) htail
      exact ⟨ok, List.mem_cons_of_mem _ hok⟩

lemma resolveAll_events_shape (fetch : String → Option TileData) (ids : List String) :
    ∀ s : LoaderState, ∀ e ∈ (resolveAll fetch s ids).2,
    ∃ id ok, e = Event.tileResolved id ok := by
  induction ids with
  | nil => intro s e h; exact absurd h (List.not_mem_nil e)
  | cons id ids ih =>
    intro s e he
    rcases List.mem_cons.mp he with heq | htail
    · exact ⟨id, _, heq⟩
    · exact ih _ e htail

lemma mem_setInsert (acc : List String) (a x : String) :
    x ∈ setInsert acc a ↔ x ∈ acc ∨ x = a := by
  unfold setInsert
  by_cases h : acc.contains a = true
  · rw [if_pos h]
    have ha : a ∈ acc := (contains_iff_mem acc a).mp h
    constructor
    · exact Or.inl
    · rintro (hx | rfl)
      · exact hx
      · exact ha
  · rw [if_neg h]
    simp

lemma nodup_setInsert (acc : List String) (a : String) (h : acc.Nodup) :
    (setInsert acc a).Nodup := by
  unfold setInsert
  by_cases hc : acc.contains a = true
  · rw [if_pos hc]; exact h
  · rw [if_neg hc]
    have ha : a ∉ acc := fun hm => hc ((contains_iff_mem acc a).mpr hm)
    simp [List.nodup_append, h, ha]

lemma mem_foldl_setInsert (l : List String) :
    ∀ acc x, x ∈ l.foldl setInsert acc ↔ x ∈ acc ∨ x ∈ l := by
  induction l with
  | nil => intro acc x; simp
  | cons a t ih =>
    intro acc x
    rw [List.foldl_cons, ih, mem_setInsert]
    simp [List.mem_cons]
    tauto

lemma nodup_foldl_setInsert (l : List String) :
    ∀ acc, acc.Nodup → (l.foldl setInsert acc).Nodup := by
  induction l with
  | nil => intro acc h; exact h
  | cons a t ih =>
    intro acc h
    rw [List.foldl_cons]
    exact ih _ (nodup_setInsert acc a h)

lemma setOfList_nodup (l : List String) : (setOfList l).Nodup :=
  nodup_foldl_setInsert l [] List.nodup_nil

lemma mem_setOfList (l : List String) (x : String) : x ∈ setOfList l ↔ x ∈ l := by
  unfold setOfList
  rw [mem_foldl_setInsert]
  simp

lemma nodup_length_subset_iff (cur next : List String) (hc : cur.Nodup) (hn : next.Nodup)
    (hlen : cur.length = next.length) (hsub : ∀ x ∈ next, x ∈ cur) :
    ∀ x, x ∈ next ↔ x ∈ cur := by
  have hsub2 : next.toFinset ⊆ cur.toFinset := by
    intro x hx
    rw [List.mem_toFinset] at hx ⊢
    exact hsub x hx
  have hcard : cur.toFinset.card ≤ next.toFinset.card := by
    rw [List.toFinset_card_of_nodup hc, List.toFinset_card_of_nodup hn]
    omega
  have hfe := Finset.eq_of_subset_of_card_le hsub2 hcard
  intro x
  constructor
  · exact hsub x
  · intro hx
    have : x ∈ cur.toFinset := List.mem_toFinset.mpr hx
    rw [← hfe] at this
    exact List.mem_toFinset.mp this

lemma hasChangesCalc_eq_false_iff (cur next : List String) (hc : cur.Nodup) (hn : next.Nodup) :
    hasChangesCalc cur next = false ↔ ∀ x, x ∈ next ↔ x ∈ cur := by
  unfold hasChangesCalc
  by_cases hlen : cur.length = next.length
  · have hbne : (cur.length != next.length) = false := by simp [hlen]
    rw [hbne, if_neg (by simp)]
    constructor
    · intro hany
      have hsub : ∀ x ∈ next, x ∈ cur := by
        intro x hx
        have hthis := List.any_eq_false.mp hany x hx
        simp at hthis
        exact hthis
      exact nodup_length_subset_iff cur next hc hn hlen hsub
    · intro hiff
      rw [List.any_eq_false]
      intro x hx
      simp
      exact (hiff x).mp hx
  · have hbne : (cur.length != next.length) = true := by simp [hlen]
    rw [hbne, if_pos rfl]
    constructor
    · intro h; exact absurd h (by simp)
    · intro hiff
      exfalso
      apply hlen
      have : cur.toFinset = next.toFinset := by
        ext x
        rw [List.mem_toFinset, List.mem_toFinset]
        exact (hiff x).symm
      rw [← List.toFinset_card_of_nodup hc, ← List.toFinset_card_of_nodup hn, this]

lemma findTile_of_mem_viewport {m : Manifest} {vb : Bounds} {id : String}
    (h : id ∈ getTilesForViewport (some m) vb) :
    ∃ t, findTile (some m) id = some t := by
  unfold getTilesForViewport at h
  rw [List.mem_map] at h
  obtain ⟨t, htf, rfl⟩ := h
  have ht : t ∈ m.tiles := List.mem_of_mem_filter htf
  cases hf : m.tiles.find? (fun u => tileIdOf u == tileIdOf t) with
  | some u => exact ⟨u, by simp [findTile, hf]⟩
  | none =>
    exfalso
    have hnone := List.find?_eq_none.mp hf t ht
    simp at hnone

lemma uvtPhase1_tilesManifest (fetch : String → Option TileData) (s : LoaderState)
    (vb : Bounds) : ((uvtPhase1 fetch s vb).1).tilesManifest = s.tilesManifest := by
  unfold uvtPhase1
  split
  · simp [resolveAll_tilesManifest, startAll_tilesManifest]
  · rfl

lemma uvtPhase1_visibleTiles (fetch : String → Option TileData) (s : LoaderState)
    (vb : Bounds) : ((uvtPhase1 fetch s vb).1).visibleTiles = s.visibleTiles := by
  unfold uvtPhase1
  split
  · simp [resolveAll_visibleTiles, startAll_visibleTiles]
  · rfl

lemma uvtPhase1_cache_mono (fetch : String → Option TileData) (s : LoaderState)
    (vb : Bounds) (id : String) (h : cacheHas s.tileCache id = true) :
    cacheHas ((uvtPhase1 fetch s vb).1).tileCache id = true := by
  unfold uvtPhase1
  split
  · show cacheHas ((resolveAll fetch _ _).1).tileCache id = true
    apply cacheHas_resolveAll_mono
    rw [startAll_tileCache]
    exact h
  · exact h

lemma uvtPhase1_resolves (fetch : String → Option TileData) (s : LoaderState)
    (vb : Bounds) (id : String) (hmem : id ∈ uvtMissing s vb)
    (ht : ∃ t, findTile s.tilesManifest id = some t) :
    cacheHas ((uvtPhase1 fetch s vb).1).tileCache id = true ∨
      ∃ t, findTile s.tilesManifest id = some t ∧ fetch t.file = none := by
  have hlen : (uvtMissing s vb).length > 0 :=
    List.length_pos.mpr (List.ne_nil_of_mem hmem)
  unfold uvtPhase1
  rw [if_pos hlen]
  have hmem2 : id ∈ setOfList (uvtMissing s vb) := (mem_setOfList _ _).mpr hmem
  have hman : findTile ((startAll { s with loading := true } (uvtMissing s vb)).tilesManifest) id =
      findTile s.tilesManifest id := by
    rw [startAll_tilesManifest]
  rcases resolveAll_resolves fetch (setOfList (uvtMissing s vb)) id
      (startAll { s with loading := true } (uvtMissing s vb)) hmem2
      (by rw [hman]; exact ht) with hc | ⟨t, htt, hf⟩
  · left
    exact hc
  · right
    rw [hman] at htt
    exact ⟨t, htt, hf⟩

lemma uvtPhase1_events_cover (fetch : String → Option TileData) (s : LoaderState)
    (vb : Bounds) (id : String) (hmem : id ∈ uvtMissing s vb) :
    ∃ ok, Event.tileResolved id ok ∈ (uvtPhase1 fetch s vb).2 := by
  have hlen : (uvtMissing s vb).length > 0 :=
    List.length_pos.mpr (List.ne_nil_of_mem hmem)
  unfold uvtPhase1
  rw [if_pos hlen]
  have hmem2 : id ∈ setOfList (uvtMissing s vb) := (mem_setOfList _ _).mpr hmem
  obtain ⟨ok, hok⟩ := resolveAll_events_cover fetch (setOfList (uvtMissing s vb)) id
    (startAll { s with loading := true } (uvtMissing s vb)) hmem2
  refine ⟨ok, ?_⟩
  show Event.tileResolved id ok ∈ Event.setLoading true :: _ ++ [Event.setLoading false]
  exact List.mem_cons_of_mem _ (List.mem_append_left _ hok)

lemma uvtPhase1_events_shape (fetch : String → Option TileData) (s : LoaderState)
    (vb : Bounds) : ∀ e ∈ (uvtPhase1 fetch s vb).2, isPublishEvent e = false := by
  unfold uvtPhase1
  split
  · intro e he
    show isPublishEvent e = false
    rcases List.mem_cons.mp he with he0 | he9
    · rw [he0]; rfl
    · rcases List.mem_append.mp he9 with heA | heB
      · obtain ⟨id, ok, hee⟩ := resolveAll_events_shape _ _ _ e heA
        rw [hee]; rfl
      · rw [List.mem_singleton.mp heB]; rfl
  · intro e he
    exact absurd he (List.not_mem_nil e)

lemma uvtPhase2_tileCache (fetch : String → Option TileData) (s : LoaderState)
    (vb : Bounds) :
    ((uvtPhase2 fetch s vb).1).tileCache = ((uvtPhase1 fetch s vb).1).tileCache := by
  unfold uvtPhase2
  split
  · rfl
  · rfl

lemma uvtPhase2_tilesManifest (fetch : String → Option TileData) (s : LoaderState)
    (vb : Bounds) :
    ((uvtPhase2 fetch s vb).1).tilesManifest = s.tilesManifest := by
  unfold uvtPhase2
  split
  · simp [uvtPhase1_tilesManifest]
  · exact uvtPhase1_tilesManifest fetch s vb

lemma split_at_unique_publish :
    ∀ (A : List Event), ∀ (C : List Event) (b : Event),
    (∀ e ∈ A, isPublishEvent e = false) → (∀ e ∈ C, isPublishEvent e = false) →
    isPublishEvent b = true →
    ∀ (l1 : List Event) (bq : Event) (l2 : List Event), isPublishEvent bq = true →
    A ++ b :: C = l1 ++ bq :: l2 →
    l1 = A ∧ bq = b ∧ l2 = C := by
  intro A
  induction A with
  | nil =>
    intro C b hA hC hb l1 bq l2 hbq h
    cases l1 with
    | nil =>
      rw [List.nil_append, List.nil_append] at h
      injection h with h1 h2
      exact ⟨rfl, h1.symm, h2.symm⟩
    | cons x xs =>
      rw [List.nil_append, List.cons_append] at h
      injection h with h1 h2
      exfalso
      have hin : bq ∈ C := by
        rw [h2]
        exact List.mem_append_right _ (List.mem_cons_self _ _)
      rw [hC bq hin] at hbq
      exact Bool.false_ne_true hbq
  | cons a A ih =>
    intro C b hA hC hb l1 bq l2 hbq h
    cases l1 with
    | nil =>
      rw [List.cons_append, List.nil_append] at h
      injection h with h1 h2
      exfalso
      have ha := hA a (List.mem_cons_self a A)
      rw [← h1] at hbq
      rw [ha] at hbq
      exact Bool.false_ne_true hbq
    | cons x xs =>
      rw [List.cons_append, List.cons_append] at h
      injection h with h1 h2
      have := ih C b (fun e he => hA e (List.mem_cons_of_mem a he)) hC hb xs bq l2 hbq h2
      exact ⟨by rw [h1, this.1], this.2.1, this.2.2⟩

/-- Claim C4: for every viewport and loaded manifest,
`getTilesForViewport` returns exactly the identifiers of the manifest
tiles whose bounding box passes the closed-rectangle intersection test,
in manifest order; the result is empty when the manifest is not loaded,
and empty for every viewport wholly outside the dataset bounds provided
every tile's bounding box lies within the dataset bounds. -/
theorem getTilesForViewport_spec (vb : Bounds) :
    getTilesForViewport none vb = [] ∧
    (∀ m : Manifest,
      getTilesForViewport (some m) vb =
        (m.tiles.filter (fun t => rectIntersects vb t.bounds)).map tileIdOf) ∧
    (∀ m : Manifest,
      (∀ t ∈ m.tiles,
        m.bounds.minLng ≤ t.bounds.minLng ∧ t.bounds.maxLng ≤ m.bounds.maxLng ∧
        m.bounds.minLat ≤ t.bounds.minLat ∧ t.bounds.maxLat ≤ m.bounds.maxLat) →
      (vb.maxLng < m.bounds.minLng ∨ vb.minLng > m.bounds.maxLng ∨
        vb.maxLat < m.bounds.minLat ∨ vb.minLat > m.bounds.maxLat) →
      getTilesForViewport (some m) vb = []) := by
  refine ⟨rfl, fun m => rfl, ?_⟩
  intro m hin hout
  show (m.tiles.filter (fun t => rectIntersects vb t.bounds)).map tileIdOf = []
  have hfil : m.tiles.filter (fun t => rectIntersects vb t.bounds) = [] := by
    rw [List.filter_eq_nil_iff]
    intro t ht
    obtain ⟨h1, h2, h3, h4⟩ := hin t ht
    have hq : vb.maxLng < t.bounds.minLng ∨ vb.minLng > t.bounds.maxLng ∨
        vb.maxLat < t.bounds.minLat ∨ vb.minLat > t.bounds.maxLat := by
      rcases hout with h | h | h | h
      · exact Or.inl (by linarith)
      · exact Or.inr (Or.inl (by linarith))
      · exact Or.inr (Or.inr (Or.inl (by linarith)))
      · exact Or.inr (Or.inr (Or.inr (by linarith)))
    unfold rectIntersects
    rcases hq with h | h | h | h <;> simp [h]
  rw [hfil]
  rfl

/-- Witness for C4 at a concrete outside viewport and manifest. -/
theorem getTilesForViewport_spec_witness :
    getTilesForViewport (some soloManifest)
      { minLng := 10, maxLng := 11, minLat := 10, maxLat := 11 } = [] :=
  (getTilesForViewport_spec _).2.2 soloManifest (by decide) (by decide)

set_option maxHeartbeats 1000000 in
/-- Claim C9: `getSurroundingTiles(col, row)` returns exactly the
identifiers of the up-to-8 grid-adjacent cells `(c, r)` with
`|c - col| ≤ 1`, `|r - row| ≤ 1`, `(c, r) ≠ (col, row)` that exist in
the manifest; on a manifest containing only `0_0` and `1_1`,
`getSurroundingTiles(0, 0)` returns `["1_1"]`. -/
theorem getSurroundingTiles_spec (m : Manifest) (col row : Int) :
    (∀ id, id ∈ getSurroundingTiles (some m) col row ↔
      ∃ c r : Int, (c, r) ≠ (col, row) ∧ (c - col).natAbs ≤ 1 ∧ (r - row).natAbs ≤ 1 ∧
        tileExists (some m) c r = true ∧ id = toString c ++ "_" ++ toString r) ∧
    getSurroundingTiles (some sparseManifest) 0 0 = ["1_1"] := by
  constructor
  · intro id
    constructor
    · intro hmem
      unfold getSurroundingTiles at hmem
      rw [List.mem_map] at hmem
      obtain ⟨cr, hcr, rfl⟩ := hmem
      rw [List.mem_filter] at hcr
      obtain ⟨hcell, hex⟩ := hcr
      have hthis : cr = (col - 1, row - 1) ∨ cr = (col - 1, row) ∨ cr = (col - 1, row + 1) ∨
          cr = (col, row - 1) ∨ cr = (col, row + 1) ∨
          cr = (col + 1, row - 1) ∨ cr = (col + 1, row) ∨ cr = (col + 1, row + 1) := by
        simpa [surroundingCells] using hcell
      have hprodne : ∀ c r : Int, ¬(c = col ∧ r = row) → (c, r) ≠ (col, row) := by
        intro c r h he
        rw [Prod.mk.injEq] at he
        exact h he
      rcases hthis with rfl | rfl | rfl | rfl | rfl | rfl | rfl | rfl
      · exact ⟨col - 1, row - 1, hprodne _ _ (by omega), by omega, by omega, hex, rfl⟩
      · exact ⟨col - 1, row, hprodne _ _ (by omega), by omega, by omega, hex, rfl⟩
      · exact ⟨col - 1, row + 1, hprodne _ _ (by omega), by omega, by omega, hex, rfl⟩
      · exact ⟨col, row - 1, hprodne _ _ (by omega), by omega, by omega, hex, rfl⟩
      · exact ⟨col, row + 1, hprodne _ _ (by omega), by omega, by omega, hex, rfl⟩
      · exact ⟨col + 1, row - 1, hprodne _ _ (by omega), by omega, by omega, hex, rfl⟩
      · exact ⟨col + 1, row, hprodne _ _ (by omega), by omega, by omega, hex, rfl⟩
      · exact ⟨col + 1, row + 1, hprodne _ _ (by omega), by omega, by omega, hex, rfl⟩
    · rintro ⟨c, r, hne, hc1, hr1, hex, rfl⟩
      have hne2 : ¬(c = col ∧ r = row) := fun h => hne (by rw [h.1, h.2])
      have hmemcell : (c, r) ∈ surroundingCells col row := by
        simp only [surroundingCells, List.mem_cons, List.not_mem_nil, or_false, Prod.ext_iff]
        omega
      unfold getSurroundingTiles
      rw [List.mem_map]
      exact ⟨(c, r), List.mem_filter.mpr ⟨hmemcell, hex⟩, rfl⟩
  · decide

/-- Witness for C9: the neighborhood characterization instantiated on
the sparse manifest at `(0, 0)` and the identifier `"1_1"`. -/
theorem getSurroundingTiles_spec_witness :
    "1_1" ∈ getSurroundingTiles (some sparseManifest) 0 0 :=
  ((getSurroundingTiles_spec sparseManifest 0 0).1 "1_1").mpr
    ⟨1, 1, by decide, by decide, by decide, by decide, by decide⟩

/-- Claim C6: `getVisibleParcels` is a pure read of the visible-tile
set and the cache (the embedding gives it no access to the network
oracle or the in-flight registry); it returns null exactly when the
concatenation of the cached feature lists of the visible-tile set is
empty, and with a viewport it returns exactly the concatenated features
having at least one geometry coordinate inside the closed viewport
rectangle. -/
theorem getVisibleParcels_spec (visible : List String) (cache : TileCache) (vb : Bounds) :
    (∀ vbq : Option Bounds,
      getVisibleParcels visible cache vbq = none ↔ allFeaturesOf visible cache = []) ∧
    (allFeaturesOf visible cache ≠ [] →
      getVisibleParcels visible cache (some vb) =
        some ((allFeaturesOf visible cache).filter (featurePassesViewport vb))) ∧
    (∀ f : Feature, featurePassesViewport vb f = true ↔
      ∃ c ∈ featureCoords f,
        vb.minLng ≤ c.1 ∧ c.1 ≤ vb.maxLng ∧ vb.minLat ≤ c.2 ∧ c.2 ≤ vb.maxLat) := by
  refine ⟨?_, ?_, ?_⟩
  · intro vbq
    by_cases h : allFeaturesOf visible cache = []
    · constructor
      · intro _
        exact h
      · intro _
        simp [getVisibleParcels, h]
    · have hlen : ¬((allFeaturesOf visible cache).length = 0) := by
        simpa [List.length_eq_zero] using h
      constructor
      · intro hres
        exfalso
        simp only [getVisibleParcels] at hres
        rw [if_neg hlen] at hres
        cases vbq <;> simp at hres
      · intro hh
        exact absurd hh h
  · intro h
    have hlen : ¬((allFeaturesOf visible cache).length = 0) := by
      simpa [List.length_eq_zero] using h
    simp only [getVisibleParcels]
    rw [if_neg hlen]
  · intro f
    cases hg : f.geometry with
    | none => simp [featurePassesViewport, featureCoords, hg]
    | some g =>
      cases g with
      | missingCoordinates => simp [featurePassesViewport, featureCoords, hg]
      | polygon rings =>
        simp [featurePassesViewport, featureCoords, hg, coordInViewport,
          List.any_eq_true, and_assoc]
        constructor
        · rintro ⟨ring, hring, a, b, hmem, hP⟩
          exact ⟨a, b, ⟨ring, hring, hmem⟩, hP⟩
        · rintro ⟨a, b, ⟨ring, hring, hmem⟩, hP⟩
          exact ⟨ring, hring, a, b, hmem, hP⟩
      | multiPolygon polys =>
        simp [featurePassesViewport, featureCoords, hg, coordInViewport,
          List.any_eq_true, and_assoc]
        constructor
        · rintro ⟨po, hpo, ring, hring, a, b, hmem, hP⟩
          exact ⟨a, b, ⟨ring, ⟨po, hpo, hring⟩, hmem⟩, hP⟩
        · rintro ⟨a, b, ⟨ring, ⟨po, hpo, hring⟩, hmem⟩, hP⟩
          exact ⟨po, hpo, ring, hring, a, b, hmem, hP⟩

/-- Witness for C6: the viewport filter evaluated on the concrete
two-tile scenario. -/
theorem getVisibleParcels_spec_witness :
    getVisibleParcels dupVisible dupCache (some wideVb) =
      some ((allFeaturesOf dupVisible dupCache).filter (featurePassesViewport wideVb)) :=
  (getVisibleParcels_spec dupVisible dupCache wideVb).2.1 (by decide)

/-- Claim C10: a feature with missing geometry or missing coordinates
stored in a cached visible tile is included in the result of
`getVisibleParcels()` without a viewport, but excluded whenever any
viewport rectangle is supplied. -/
theorem getVisibleParcels_degenerate_features (visible : List String) (cache : TileCache)
    (vb : Bounds) (f : Feature)
    (hf : f ∈ allFeaturesOf visible cache)
    (hdeg : f.geometry = none ∨ f.geometry = some Geometry.missingCoordinates) :
    (∃ fs, getVisibleParcels visible cache none = some fs ∧ f ∈ fs) ∧
    (∀ fs, getVisibleParcels visible cache (some vb) = some fs → f ∉ fs) := by
  have hne : allFeaturesOf visible cache ≠ [] := List.ne_nil_of_mem hf
  have hlen : ¬((allFeaturesOf visible cache).length = 0) := by
    simpa [List.length_eq_zero] using hne
  constructor
  · refine ⟨allFeaturesOf visible cache, ?_, hf⟩
    simp only [getVisibleParcels]
    rw [if_neg hlen]
  · intro fs hfs hmem
    simp only [getVisibleParcels] at hfs
    rw [if_neg hlen] at hfs
    have hfs2 : fs = (allFeaturesOf visible cache).filter (featurePassesViewport vb) := by
      injection hfs with hinj
      exact hinj.symm
    rw [hfs2] at hmem
    have hpass := (List.mem_filter.mp hmem).2
    rcases hdeg with hg | hg <;> simp [featurePassesViewport, hg] at hpass

/-- Witness for C10: the degenerate feature in the concrete cache is
returned when no viewport is supplied. -/
theorem getVisibleParcels_degenerate_features_witness :
    ∃ fs, getVisibleParcels ["0_0"] degCache none = some fs ∧ degFeature ∈ fs :=
  (getVisibleParcels_degenerate_features ["0_0"] degCache wideVb degFeature
    (by decide) (Or.inl rfl)).1

/-- Counterexample to claim C7: with the empty visible-tile set all
loads are (vacuously) complete yet `getVisibleParcels()` returns null,
not a non-null collection of count 0; and on the two-tile scenario —
where the splitter's own `featureInBbox` test assigns the straddling
feature to both tile files, as the last two conjuncts verify — the
returned collection contains that feature twice. -/
theorem getVisibleParcels_no_duplicates_cex :
    getVisibleParcels [] [] none = none ∧
    getVisibleParcels dupVisible dupCache none =
      some [straddleFeature, straddleFeature] ∧
    ¬ ([straddleFeature, straddleFeature] : List Feature).Nodup ∧
    featureInBbox straddleFeature tileA.bounds = true ∧
    featureInBbox straddleFeature tileB.bounds = true := by
  refine ⟨rfl, by decide, by decide, by decide, by decide⟩

/-- Claim C7 as amended: once loads complete, `getVisibleParcels()`
returns the concatenation of the cached feature lists of the visible
tiles — non-null provided that concatenation is non-empty — whose
feature count equals the sum of the feature counts of all cached tiles
in the visible-tile set; the collection is duplicate-free provided the
cached visible feature lists are individually duplicate-free and
pairwise disjoint (which the tile splitter does not guarantee for
features whose bounding box straddles a tile boundary). -/
theorem getVisibleParcels_count_spec (visible : List String) (cache : TileCache)
    (hne : allFeaturesOf visible cache ≠ []) :
    getVisibleParcels visible cache none = some (allFeaturesOf visible cache) ∧
    (allFeaturesOf visible cache).length =
      (visible.map (fun id =>
        match cacheGet cache id with
        | some td => td.features.length
        | none => 0)).sum ∧
    ((∀ l ∈ visible.map (fun id =>
        match cacheGet cache id with
        | some td => td.features
        | none => ([] : List Feature)), l.Nodup) →
      List.Pairwise List.Disjoint (visible.map (fun id =>
        match cacheGet cache id with
        | some td => td.features
        | none => ([] : List Feature))) →
      (allFeaturesOf visible cache).Nodup) := by
  have hlen : ¬((allFeaturesOf visible cache).length = 0) := by
    simpa [List.length_eq_zero] using hne
  refine ⟨?_, ?_, ?_⟩
  · simp only [getVisibleParcels]
    rw [if_neg hlen]
  · unfold allFeaturesOf
    rw [List.length_flatten, List.map_map]
    congr 1
    apply List.map_congr_left
    intro a _
    cases h : cacheGet cache a <;> simp [Function.comp, h]
  · intro hn hd
    unfold allFeaturesOf
    exact List.nodup_flatten.mpr ⟨hn, hd⟩

/-- Witness for C7 (amended) on a cache whose two visible tiles hold
disjoint singleton feature lists. -/
theorem getVisibleParcels_count_spec_witness :
    getVisibleParcels dupVisible cleanCache none =
      some (allFeaturesOf dupVisible cleanCache) ∧
    (allFeaturesOf dupVisible cleanCache).Nodup := by
  have h := getVisibleParcels_count_spec dupVisible cleanCache (by decide)
  refine ⟨h.1, h.2.2 ?_ ?_⟩
  · decide
  · show List.Pairwise List.Disjoint ([[demoFeature 0], [demoFeature 3]] : List (List Feature))
    refine List.Pairwise.cons ?_ (List.pairwise_singleton _ _)
    intro l hl
    rw [List.mem_singleton.mp hl]
    intro a ha hb
    rw [List.mem_singleton.mp ha] at hb
    exact absurd (List.mem_singleton.mp hb) (by decide)

lemma inflightDelete_of_none {l : Inflight} {id : String} (h : inflightGet l id = none) :
    inflightDelete l id = l := by
  unfold inflightDelete
  apply List.filter_eq_self.mpr
  intro e he
  have hne := List.lookup_eq_none_iff.mp h e he
  simp only [bne_iff_ne, ne_eq] at hne
  simp only [Bool.not_eq_true', beq_eq_false_iff_ne, ne_eq]
  exact fun hh => hne hh.symm

lemma inflightDelete_cons_self {l : Inflight} {id : String} {pid : Nat}
    (h : inflightGet l id = none) :
    inflightDelete ((id, pid) :: l) id = l := by
  have h2 : inflightDelete ((id, pid) :: l) id = inflightDelete l id := by
    unfold inflightDelete
    rw [List.filter_cons]
    simp
  rw [h2, inflightDelete_of_none h]

lemma inflightGet_cons_self (l : Inflight) (id : String) (pid : Nat) :
    inflightGet ((id, pid) :: l) id = some pid := by
  simp [inflightGet, List.lookup]

lemma loadTileStartN_pending (id : String) (pid : Nat) (k : Nat) :
    ∀ s : LoaderState, cacheGet s.tileCache id = none →
    inflightGet s.inflight id = some pid →
    loadTileStartN s id k = (List.replicate k (StartOutcome.inflightHit pid), s) := by
  induction k with
  | zero =>
    intro s h1 h2
    rfl
  | succ n ih =>
    intro s h1 h2
    have hstart : loadTileStart s id = (StartOutcome.inflightHit pid, s) := by
      simp only [loadTileStart, h1, h2]
    simp only [loadTileStartN]
    rw [hstart, ih s h1 h2]
    simp [List.replicate_succ]

/-- Claim C1: starting from a state where `id` is neither cached nor
in flight and has a manifest descriptor, `N = n + 1` invocations of
`loadTile(id)` that all arrive before the first one's fetch resolves
issue exactly one network fetch: the first call starts the promise and
every later call receives that same pending promise from the in-flight
registry, so when the single fetch settles, all `N` callers are handed
the same resolved value (the fetch outcome for `t.file`). -/
theorem loadTile_concurrent_dedup (s : LoaderState) (id : String) (t : TileDesc)
    (fetch : String → Option TileData) (n : Nat)
    (hc : cacheGet s.tileCache id = none)
    (hi : inflightGet s.inflight id = none)
    (ht : findTile s.tilesManifest id = some t) :
    (loadTileStartN s id (n + 1)).1 =
      StartOutcome.started s.nextPromiseId ::
        List.replicate n (StartOutcome.inflightHit s.nextPromiseId) ∧
    ((loadTileStartN s id (n + 1)).2).fetchCount = s.fetchCount + 1 ∧
    (loadTileResolve fetch ((loadTileStartN s id (n + 1)).2) id).1 = fetch t.file := by
  have hstart : loadTileStart s id =
      (StartOutcome.started s.nextPromiseId,
        { s with inflight := (id, s.nextPromiseId) :: s.inflight,
                 fetchCount := s.fetchCount + 1,
                 nextPromiseId := s.nextPromiseId + 1 }) := by
    simp only [loadTileStart, hc, hi, ht]
  have hN : loadTileStartN s id (n + 1) =
      (StartOutcome.started s.nextPromiseId ::
        List.replicate n (StartOutcome.inflightHit s.nextPromiseId),
        { s with inflight := (id, s.nextPromiseId) :: s.inflight,
                 fetchCount := s.fetchCount + 1,
                 nextPromiseId := s.nextPromiseId + 1 }) := by
    simp only [loadTileStartN]
    rw [hstart]
    dsimp only
    rw [loadTileStartN_pending id s.nextPromiseId n
      { s with inflight := (id, s.nextPromiseId) :: s.inflight,
               fetchCount := s.fetchCount + 1, nextPromiseId := s.nextPromiseId + 1 }
      hc (inflightGet_cons_self s.inflight id s.nextPromiseId)]
  refine ⟨by rw [hN], by rw [hN], ?_⟩
  rw [hN]
  cases hf : fetch t.file <;> simp only [loadTileResolve, ht, hf]

/-- Witness for C1: three concurrent calls on the fresh single-tile
state perform one fetch, the later two join promise 0, and the resolved
value handed to all three is the successful fetch result. -/
theorem loadTile_concurrent_dedup_witness :
    (loadTileStartN (emptyLoader (some soloManifest)) "0_0" 3).1 =
      [StartOutcome.started 0, StartOutcome.inflightHit 0, StartOutcome.inflightHit 0] ∧
    ((loadTileStartN (emptyLoader (some soloManifest)) "0_0" 3).2).fetchCount = 1 ∧
    (loadTileResolve fetchOk
      ((loadTileStartN (emptyLoader (some soloManifest)) "0_0" 3).2) "0_0").1 =
      fetchOk soloTile.file := by
  have h := loadTile_concurrent_dedup (emptyLoader (some soloManifest)) "0_0" soloTile
    fetchOk 2 rfl rfl (by decide)
  exact ⟨by rw [h.1]; rfl, h.2.1, h.2.2⟩

/-- Claim C5: from a state where `id` is neither cached nor in flight,
`loadTile(id)` returns null without exception both when `id` has no
manifest descriptor (nothing at all happens) and when the fetch fails;
the cache and the manifest are never changed on failure, and the
in-flight entry created for the load is removed again once the promise
settles, whether the fetch succeeded or failed. -/
theorem loadTile_failure_spec (fetch : String → Option TileData) (s : LoaderState)
    (id : String)
    (hc : cacheGet s.tileCache id = none)
    (hi : inflightGet s.inflight id = none) :
    (findTile s.tilesManifest id = none →
      loadTileStart s id = (StartOutcome.nullNoTile, s)) ∧
    (∀ t, findTile s.tilesManifest id = some t →
      inflightGet ((loadTileStart s id).2).inflight id = some s.nextPromiseId ∧
      ((loadTileResolve fetch ((loadTileStart s id).2) id).2).tilesManifest =
        s.tilesManifest ∧
      ((loadTileResolve fetch ((loadTileStart s id).2) id).2).inflight = s.inflight ∧
      (fetch t.file = none →
        (loadTileResolve fetch ((loadTileStart s id).2) id).1 = none ∧
        ((loadTileResolve fetch ((loadTileStart s id).2) id).2).tileCache =
          s.tileCache)) := by
  constructor
  · intro hn
    simp only [loadTileStart, hc, hi, hn]
  · intro t ht
    have hstart : loadTileStart s id =
        (StartOutcome.started s.nextPromiseId,
          { s with inflight := (id, s.nextPromiseId) :: s.inflight,
                   fetchCount := s.fetchCount + 1,
                   nextPromiseId := s.nextPromiseId + 1 }) := by
      simp only [loadTileStart, hc, hi, ht]
    rw [hstart]
    dsimp only
    refine ⟨inflightGet_cons_self s.inflight id s.nextPromiseId, ?_, ?_, ?_⟩
    · rw [loadTileResolve_tilesManifest]
    · cases hf : fetch t.file <;>
        simp only [loadTileResolve, ht, hf] <;>
        exact inflightDelete_cons_self hi
    · intro hf
      simp only [loadTileResolve, ht, hf]
      exact ⟨trivial, trivial⟩

/-- Witness for C5: the unknown-tile no-op and the failed-fetch
inflight cleanup on the fresh single-tile state. -/
theorem loadTile_failure_spec_witness :
    loadTileStart (emptyLoader (some soloManifest)) "9_9" =
      (StartOutcome.nullNoTile, emptyLoader (some soloManifest)) ∧
    ((loadTileResolve fetchFail
      ((loadTileStart (emptyLoader (some soloManifest)) "0_0").2) "0_0").2).inflight = [] ∧
    (loadTileResolve fetchFail
      ((loadTileStart (emptyLoader (some soloManifest)) "0_0").2) "0_0").1 = none := by
  have hA := (loadTile_failure_spec fetchFail (emptyLoader (some soloManifest)) "9_9"
    rfl rfl).1 (by decide)
  have hB := (loadTile_failure_spec fetchFail (emptyLoader (some soloManifest)) "0_0"
    rfl rfl).2 soloTile (by decide)
  exact ⟨hA, hB.2.2.1, (hB.2.2.2 rfl).1⟩

/-- Counterexample to claim C3 as stated for every tile identifier:
on the fresh single-tile state with a failing network, two sequential
`loadTile("0_0")` calls perform two fetches, not exactly one (the
failure leaves the cache empty, so the second call retries — exactly
the retry behavior the inflight-cleanup is documented to enable). -/
theorem loadTile_idempotence_cex :
    ((loadTileSeq fetchFail
      ((loadTileSeq fetchFail (emptyLoader (some soloManifest)) "0_0").2)
      "0_0").2).fetchCount = 2 ∧
    ¬ (((loadTileSeq fetchFail
      ((loadTileSeq fetchFail (emptyLoader (some soloManifest)) "0_0").2)
      "0_0").2).fetchCount = 1) := by
  constructor
  · decide
  · decide

/-- Claim C3 as amended: for a tile identifier that has a manifest
descriptor and whose fetch succeeds, two sequential `loadTile(id)`
calls perform exactly one network fetch; the second call returns the
cached value immediately, with no state change at all. -/
theorem loadTile_idempotence_amended (fetch : String → Option TileData) (s : LoaderState)
    (id : String) (t : TileDesc) (td : TileData)
    (hc : cacheGet s.tileCache id = none)
    (hi : inflightGet s.inflight id = none)
    (ht : findTile s.tilesManifest id = some t)
    (hf : fetch t.file = some td) :
    (loadTileSeq fetch s id).1 = some td ∧
    ((loadTileSeq fetch s id).2).fetchCount = s.fetchCount + 1 ∧
    cacheGet ((loadTileSeq fetch s id).2).tileCache id = some td ∧
    loadTileSeq fetch ((loadTileSeq fetch s id).2) id =
      (some td, (loadTileSeq fetch s id).2) := by
  have hstart : loadTileStart s id =
      (StartOutcome.started s.nextPromiseId,
        { s with inflight := (id, s.nextPromiseId) :: s.inflight,
                 fetchCount := s.fetchCount + 1,
                 nextPromiseId := s.nextPromiseId + 1 }) := by
    simp only [loadTileStart, hc, hi, ht]
  have hseq : loadTileSeq fetch s id =
      (some td,
        { s with tileCache := cacheSet s.tileCache id td,
                 inflight := inflightDelete ((id, s.nextPromiseId) :: s.inflight) id,
                 fetchCount := s.fetchCount + 1,
                 nextPromiseId := s.nextPromiseId + 1 }) := by
    simp only [loadTileSeq]
    rw [hstart]
    simp only [loadTileResolve, ht, hf]
  have hcache2 : cacheGet ((loadTileSeq fetch s id).2).tileCache id = some td := by
    rw [hseq]
    exact cacheGet_cacheSet_of_none td hc
  refine ⟨by rw [hseq], by rw [hseq], hcache2, ?_⟩
  rw [hseq]
  dsimp only
  have hcg : cacheGet (cacheSet s.tileCache id td) id = some td :=
    cacheGet_cacheSet_of_none td hc
  simp only [loadTileSeq, loadTileStart, hcg]

/-- Witness for C3 (amended) on the fresh single-tile state with a
succeeding network. -/
theorem loadTile_idempotence_amended_witness :
    (loadTileSeq fetchOk (emptyLoader (some soloManifest)) "0_0").1 = some demoTileData ∧
    ((loadTileSeq fetchOk (emptyLoader (some soloManifest)) "0_0").2).fetchCount = 1 ∧
    loadTileSeq fetchOk
      ((loadTileSeq fetchOk (emptyLoader (some soloManifest)) "0_0").2) "0_0" =
      (some demoTileData, (loadTileSeq fetchOk (emptyLoader (some soloManifest)) "0_0").2) := by
  have h := loadTile_idempotence_amended fetchOk (emptyLoader (some soloManifest)) "0_0"
    soloTile demoTileData rfl rfl (by decide) rfl
  exact ⟨h.1, h.2.1, h.2.2.2⟩

/-- Claim C8: within one `updateVisibleTiles` invocation the
visible-tile state is rewritten only if the newly computed visible set
differs from the previous one by membership: when the two are equal as
sets the state is left unchanged and nothing is published, and when the
manifest is loaded and they differ the new set is written and
published. -/
theorem updateVisibleTiles_publish_gating (fetch : String → Option TileData)
    (s : LoaderState) (vb : Bounds) (hnd : s.visibleTiles.Nodup) :
    ((∀ id, id ∈ uvtNext s vb ↔ id ∈ s.visibleTiles) →
      ((updateVisibleTiles fetch s vb).1).visibleTiles = s.visibleTiles ∧
      ∀ S, Event.publish S ∉ (updateVisibleTiles fetch s vb).2) ∧
    (s.tilesManifest ≠ none →
      (¬ ∀ id, id ∈ uvtNext s vb ↔ id ∈ s.visibleTiles) →
      ((updateVisibleTiles fetch s vb).1).visibleTiles = uvtNext s vb ∧
      Event.publish (uvtNext s vb) ∈ (updateVisibleTiles fetch s vb).2) := by
  have hiff := hasChangesCalc_eq_false_iff s.visibleTiles (uvtNext s vb) hnd
    (setOfList_nodup _)
  cases hm : s.tilesManifest with
  | none =>
    have hup : updateVisibleTiles fetch s vb = (s, []) := by
      simp [updateVisibleTiles, hm]
    constructor
    · intro _
      rw [hup]
      exact ⟨rfl, fun S h => absurd h (List.not_mem_nil _)⟩
    · intro hne
      exact absurd rfl hne
  | some m =>
    have hup2 : updateVisibleTiles fetch s vb =
        (startAll (uvtPhase2 fetch s vb).1 (uvtPrefetchIds fetch s vb),
          (uvtPhase1 fetch s vb).2 ++ (uvtPhase2 fetch s vb).2 ++
            (uvtPrefetchIds fetch s vb).map Event.prefetchStart) := by
      simp [updateVisibleTiles, hm]
    constructor
    · intro hsame
      have hch : hasChangesCalc s.visibleTiles (uvtNext s vb) = false := hiff.mpr hsame
      have hp2 : uvtPhase2 fetch s vb = ((uvtPhase1 fetch s vb).1, []) := by
        simp [uvtPhase2, hch]
      constructor
      · rw [hup2]
        dsimp only
        rw [startAll_visibleTiles, hp2]
        exact uvtPhase1_visibleTiles fetch s vb
      · intro S hmem
        rw [hup2] at hmem
        dsimp only at hmem
        rcases List.mem_append.mp hmem with h1 | h2
        · rcases List.mem_append.mp h1 with h1a | h1b
          · have := uvtPhase1_events_shape fetch s vb _ h1a
            simp [isPublishEvent] at this
          · rw [hp2] at h1b
            exact absurd h1b (List.not_mem_nil _)
        · obtain ⟨idq, _, heq⟩ := List.mem_map.mp h2
          exact Event.noConfusion heq
    · intro _ hdiff
      have hch : hasChangesCalc s.visibleTiles (uvtNext s vb) = true := by
        cases hcc : hasChangesCalc s.visibleTiles (uvtNext s vb) with
        | false => exact absurd (hiff.mp hcc) hdiff
        | true => rfl
      have hp2 : uvtPhase2 fetch s vb =
          ({ (uvtPhase1 fetch s vb).1 with visibleTiles := uvtNext s vb },
            [Event.publish (uvtNext s vb)]) := by
        simp [uvtPhase2, hch]
      constructor
      · rw [hup2]
        dsimp only
        rw [startAll_visibleTiles, hp2]
      · rw [hup2]
        dsimp only
        refine List.mem_append_left _ (List.mem_append_right _ ?_)
        rw [hp2]
        exact List.mem_singleton_self _

/-- Witness for C8: on the fresh single-tile state the next visible set
`["0_0"]` differs from the previous empty set, so the new set is
written and published. -/
theorem updateVisibleTiles_publish_gating_witness :
    ((updateVisibleTiles fetchOk (emptyLoader (some soloManifest)) vbSolo).1).visibleTiles =
      uvtNext (emptyLoader (some soloManifest)) vbSolo ∧
    Event.publish (uvtNext (emptyLoader (some soloManifest)) vbSolo) ∈
      (updateVisibleTiles fetchOk (emptyLoader (some soloManifest)) vbSolo).2 :=
  (updateVisibleTiles_publish_gating fetchOk (emptyLoader (some soloManifest)) vbSolo
    List.nodup_nil).2 (by decide)
    (fun hall => absurd ((hall "0_0").mp (by decide)) (by decide))

/-- Claim C2: `updateVisibleTiles` changes no state when the manifest
has not loaded; otherwise, whenever its event trace publishes a
visible-tile set, every visible tile that was missing from the cache at
the start of the call has a resolution event strictly before the
publication, no resolution event follows it, and every member of the
published set is, at publish time, either in the tile cache or
definitively failed (its descriptor's fetch fails); the cache at
publish time equals the final cache, since the subsequent prefetch
starts never insert into the cache. -/
theorem updateVisibleTiles_publish_after_loads (fetch : String → Option TileData)
    (s : LoaderState) (vb : Bounds) :
    (s.tilesManifest = none → updateVisibleTiles fetch s vb = (s, [])) ∧
    (∀ l1 S l2,
      (updateVisibleTiles fetch s vb).2 = l1 ++ Event.publish S :: l2 →
      (∀ id ∈ uvtMissing s vb, ∃ ok, Event.tileResolved id ok ∈ l1) ∧
      (∀ e ∈ l2, ∀ idq ok, e ≠ Event.tileResolved idq ok) ∧
      (∀ id ∈ S,
        cacheHas ((updateVisibleTiles fetch s vb).1).tileCache id = true ∨
        ∃ t, findTile s.tilesManifest id = some t ∧ fetch t.file = none)) := by
  constructor
  · intro hm
    simp [updateVisibleTiles, hm]
  · intro l1 S l2 htr
    cases hm : s.tilesManifest with
    | none =>
      rw [show updateVisibleTiles fetch s vb = (s, []) by simp [updateVisibleTiles, hm]] at htr
      exact absurd htr (by simp)
    | some m =>
      have hup2 : updateVisibleTiles fetch s vb =
          (startAll (uvtPhase2 fetch s vb).1 (uvtPrefetchIds fetch s vb),
            (uvtPhase1 fetch s vb).2 ++ (uvtPhase2 fetch s vb).2 ++
              (uvtPrefetchIds fetch s vb).map Event.prefetchStart) := by
        simp [updateVisibleTiles, hm]
      rw [hup2] at htr
      dsimp only at htr
      cases hch : hasChangesCalc s.visibleTiles (uvtNext s vb) with
      | false =>
        exfalso
        have hp2 : uvtPhase2 fetch s vb = ((uvtPhase1 fetch s vb).1, []) := by
          simp [uvtPhase2, hch]
        rw [hp2] at htr
        dsimp only at htr
        have hpub : Event.publish S ∈ (uvtPhase1 fetch s vb).2 ++ ([] : List Event) ++
            (uvtPrefetchIds fetch s vb).map Event.prefetchStart := by
          rw [htr]
          exact List.mem_append_right _ (List.mem_cons_self _ _)
        rcases List.mem_append.mp hpub with h1 | h2
        · rcases List.mem_append.mp h1 with h1a | h1b
          · have hsh := uvtPhase1_events_shape fetch s vb _ h1a
            simp [isPublishEvent] at hsh
          · exact absurd h1b (List.not_mem_nil _)
        · obtain ⟨idq, _, heq⟩ := List.mem_map.mp h2
          exact Event.noConfusion heq
      | true =>
        have hp2 : uvtPhase2 fetch s vb =
            ({ (uvtPhase1 fetch s vb).1 with visibleTiles := uvtNext s vb },
              [Event.publish (uvtNext s vb)]) := by
          simp [uvtPhase2, hch]
        rw [hp2] at htr
        dsimp only at htr
        have htr2 : (uvtPhase1 fetch s vb).2 ++ Event.publish (uvtNext s vb) ::
            (uvtPrefetchIds fetch s vb).map Event.prefetchStart =
            l1 ++ Event.publish S :: l2 := by
          rw [← htr]
          simp
        have hsplit := split_at_unique_publish (uvtPhase1 fetch s vb).2
          ((uvtPrefetchIds fetch s vb).map Event.prefetchStart)
          (Event.publish (uvtNext s vb))
          (uvtPhase1_events_shape fetch s vb)
          (by
            intro e he
            obtain ⟨idq, _, heq⟩ := List.mem_map.mp he
            rw [← heq]
            rfl)
          rfl l1 (Event.publish S) l2 rfl htr2
        obtain ⟨hl1, hbq, hl2⟩ := hsplit
        have hS : S = uvtNext s vb := by
          injection hbq with h
        refine ⟨?_, ?_, ?_⟩
        · intro id hid
          rw [hl1]
          exact uvtPhase1_events_cover fetch s vb id hid
        · intro e he idq ok heq
          rw [hl2] at he
          obtain ⟨idr, _, heq2⟩ := List.mem_map.mp he
          rw [heq] at heq2
          exact Event.noConfusion heq2
        · intro id hid
          rw [hS] at hid
          have hid2 : id ∈ uvtVisibleIds s vb := (mem_setOfList _ _).mp hid
          have hvis : uvtVisibleIds s vb = getTilesForViewport (some m) vb := by
            unfold uvtVisibleIds
            rw [hm]
          have hdesc : ∃ t, findTile s.tilesManifest id = some t := by
            rw [hm]
            exact findTile_of_mem_viewport (by rw [← hvis]; exact hid2)
          have hfc : ((updateVisibleTiles fetch s vb).1).tileCache =
              ((uvtPhase1 fetch s vb).1).tileCache := by
            rw [hup2]
            dsimp only
            rw [startAll_tileCache, hp2]
          by_cases hcached : cacheHas s.tileCache id = true
          · left
            rw [hfc]
            exact uvtPhase1_cache_mono fetch s vb id hcached
          · have hmiss : id ∈ uvtMissing s vb := by
              unfold uvtMissing
              rw [List.mem_filter]
              rw [Bool.not_eq_true] at hcached
              exact ⟨hid2, by simp [hcached]⟩
            rcases uvtPhase1_resolves fetch s vb id hmiss hdesc with hcc | ⟨t, htf, hff⟩
            · left
              rw [hfc]
              exact hcc
            · right
              rw [hm] at htf
              exact ⟨t, htf, hff⟩

/-- Witness for C2: on the fresh single-tile state the concrete trace
is load-resolution first, publication last, and the resolution event
for the initially-missing tile `0_0` lies in the prefix before the
publication. -/
theorem updateVisibleTiles_publish_after_loads_witness :
    ∃ ok, Event.tileResolved "0_0" ok ∈
      [Event.setLoading true, Event.tileResolved "0_0" true, Event.setLoading false] :=
  ((updateVisibleTiles_publish_after_loads fetchOk (emptyLoader (some soloManifest))
      vbSolo).2
    [Event.setLoading true, Event.tileResolved "0_0" true, Event.setLoading false]
    ["0_0"] [] (by decide)).1 "0_0" (by decide)
